import Mathlib

/-!
# Verification of the PRISM live visual editing engine

Shallow embedding of the rendering / selection / inline-edit / property-inspection /
edit-ledger subsystem of the PRISM repository (`src/src/App.tsx` and the
application-level copy in the unnamed source part), together with proofs of the
spec's claims about it.

Conventions:
* JS strings are `String` (or `List Char` where character-level scanning matters);
* machine integers do not occur in the modelled fragment (timestamps are `Nat`,
  percentages are modelled as `ℚ`);
* the DOM is modelled as a flat list of nodes; CSS selector matching is an
  abstract oracle `M : String → Nat → Bool` keyed by a node's immutable identity,
  since the recorded style/text edits never change the attributes (id, class,
  tag) that selector matching reads.
-/

/-- A recorded style/text edit, `{selector, property, value, timestamp}`
(`StyleEdit` in `App.tsx`). -/
structure StyleEdit where
  selector : String
  property : String
  value : String
  timestamp : Nat
deriving Repr, DecidableEq

/-- `addStyleEdit`'s ledger update (both the App-level version, lines 3044-3059,
and the LivePreview version, lines 590-603): remove any existing edit for this
selector+property pair, then append the new edit. -/
def recordEdit (edits : List StyleEdit) (selector property value : String)
    (now : Nat) : List StyleEdit :=
  (edits.filter fun e => !(e.selector == selector && e.property == property)) ++
    [⟨selector, property, value, now⟩]

/-- A sequence of `record` calls folded over a ledger. -/
def recordAll (edits : List StyleEdit)
    (calls : List (String × String × String × Nat)) : List StyleEdit :=
  calls.foldl (fun acc c => recordEdit acc c.1 c.2.1 c.2.2.1 c.2.2.2) edits

/-- The entries of a ledger for one `(selector, property)` pair. -/
def pairEntries (edits : List StyleEdit) (s p : String) : List StyleEdit :=
  edits.filter fun e => e.selector == s && e.property == p

/-- The ledger invariant: at most one entry per `(selector, property)` pair. -/
def DedupLedger (edits : List StyleEdit) : Prop :=
  ∀ s p, (pairEntries edits s p).length ≤ 1

lemma pairEntries_recordEdit_same (edits : List StyleEdit) (s p v : String) (t : Nat) :
    pairEntries (recordEdit edits s p v t) s p = [⟨s, p, v, t⟩] := by
  unfold pairEntries recordEdit
  rw [List.filter_append, List.filter_filter]
  rw [List.filter_eq_nil_iff.mpr, List.nil_append]
  · simp
  · intro e _
    by_cases hs : e.selector = s <;> by_cases hp : e.property = p <;>
      simp [hs, hp]

lemma pairEntries_recordEdit_other (edits : List StyleEdit) (s p v : String) (t : Nat)
    (s' p' : String) (h : ¬(s' = s ∧ p' = p)) :
    pairEntries (recordEdit edits s p v t) s' p' = pairEntries edits s' p' := by
  unfold pairEntries recordEdit
  rw [List.filter_append, List.filter_filter]
  have h2 : List.filter (fun e => e.selector == s' && e.property == p')
      [(⟨s, p, v, t⟩ : StyleEdit)] = [] := by
    by_cases h1 : s = s'
    · have h3 : ¬ p = p' := fun hh => h ⟨h1.symm, hh.symm⟩
      simp [h1, h3]
    · simp [h1]
  rw [h2, List.append_nil]
  congr 1
  funext e
  by_cases hs : e.selector = s'
  · by_cases hp : e.property = p'
    · by_cases h1 : s' = s
      · have h3 : ¬ p' = p := fun hh => h ⟨h1, hh⟩
        simp [hs, hp, h1, h3]
      · simp [hs, hp, h1]
    · simp [hs, hp]
  · simp [hs]

lemma dedupLedger_recordEdit (edits : List StyleEdit) (hD : DedupLedger edits)
    (s p v : String) (t : Nat) : DedupLedger (recordEdit edits s p v t) := by
  intro s' p'
  by_cases h : s' = s ∧ p' = p
  · obtain ⟨hs, hp⟩ := h
    subst hs; subst hp
    rw [pairEntries_recordEdit_same]
    simp
  · rw [pairEntries_recordEdit_other _ _ _ _ _ _ _ h]
    exact hD s' p'

lemma dedupLedger_recordAll (edits : List StyleEdit) (hD : DedupLedger edits)
    (calls : List (String × String × String × Nat)) :
    DedupLedger (recordAll edits calls) := by
  induction calls generalizing edits with
  | nil => exact hD
  | cons c rest ih =>
    exact ih _ (dedupLedger_recordEdit _ hD _ _ _ _)

lemma dedupLedger_nil : DedupLedger [] := by
  intro s p
  simp [pairEntries]

/-- C2: within an Edit Ledger, recording is last-write-wins: after any sequence
of record calls (starting from the empty ledger a project is created with) at
most one entry exists per `(selector, property)` pair; recording `v1` then `v2`
for the same pair leaves exactly one entry for that pair, whose value is `v2`;
and the entries for every other pair are unchanged. -/
theorem ledger_last_write_wins
    (calls : List (String × String × String × Nat))
    (edits : List StyleEdit) (s p v1 v2 : String) (t1 t2 : Nat) :
    DedupLedger (recordAll [] calls) ∧
    pairEntries (recordEdit (recordEdit edits s p v1 t1) s p v2 t2) s p =
      [⟨s, p, v2, t2⟩] ∧
    (∀ s' p', ¬(s' = s ∧ p' = p) →
      pairEntries (recordEdit (recordEdit edits s p v1 t1) s p v2 t2) s' p' =
        pairEntries edits s' p') := by
  refine ⟨dedupLedger_recordAll [] dedupLedger_nil calls,
    pairEntries_recordEdit_same _ _ _ _ _, fun s' p' h => ?_⟩
  rw [pairEntries_recordEdit_other _ _ _ _ _ _ _ h,
    pairEntries_recordEdit_other _ _ _ _ _ _ _ h]

/-- Witness for `ledger_last_write_wins` at the spec's scenario A inputs. -/
theorem ledger_last_write_wins_witness :
    pairEntries (recordEdit (recordEdit [] ".hero-title" "color" "#ff0000" 1)
      ".hero-title" "color" "#00ff00" 2) ".sub" "font-size" =
      pairEntries [] ".sub" "font-size" :=
  (ledger_last_write_wins [(".hero-title", "color", "#ff0000", 1)]
    [] ".hero-title" "color" "#ff0000" "#00ff00" 1 2).2.2 ".sub" "font-size"
    (by decide)

/-! ## DOM model for replay and immediate application

A rendered tree is a flat list of nodes. A node's identity `nid` stands for the
attributes CSS matching reads (id/class/tag), which no recorded edit mutates;
`querySelectorAll` is the oracle `M : String → Nat → Bool` applied to each node.
`element.style.setProperty(prop, value, 'important')` replaces any previous
inline declaration for that property. -/

/-- One visual node of the rendered tree. -/
structure DomNode where
  nid : Nat
  text : String
  styles : List (String × String × Bool)
deriving Repr, DecidableEq

/-- `element.style.setProperty(p, v, 'important')`: replace the inline
declaration for `p`. -/
def setStyleImportant (styles : List (String × String × Bool)) (p v : String) :
    List (String × String × Bool) :=
  (styles.filter fun d => !(d.1 == p)) ++ [(p, v, true)]

/-- The inline declaration currently in force for a property. -/
def getStyle (n : DomNode) (p : String) : Option (String × Bool) :=
  (n.styles.filter fun d => d.1 == p).getLast?.map (fun d => d.2)

/-- Applying one edit to one node (the shared body of the LivePreview replay
effect, lines 633-643, and of `addStyleEdit`'s immediate application, lines
611-615): the `textContent` sentinel sets the node's text, anything else is a
style write with important priority. -/
def applyEditNode (e : StyleEdit) (n : DomNode) : DomNode :=
  if e.property = "textContent" then { n with text := e.value }
  else { n with styles := setStyleImportant n.styles e.property e.value }

/-- Applying one edit to every node the selector resolves to. -/
def applyEditTree (M : String → Nat → Bool) (e : StyleEdit)
    (tree : List DomNode) : List DomNode :=
  tree.map fun n => if M e.selector n.nid then applyEditNode e n else n

/-- Replay of a saved ledger against a freshly rendered tree (the LivePreview
saved-edits effect, lines 622-648): every entry is resolved and applied to all
its matches, in ledger order. -/
def replayEdits (M : String → Nat → Bool) (edits : List StyleEdit)
    (tree : List DomNode) : List DomNode :=
  edits.foldl (fun t e => applyEditTree M e t) tree

lemma applyEditNode_nid (e : StyleEdit) (n : DomNode) :
    (applyEditNode e n).nid = n.nid := by
  unfold applyEditNode
  by_cases h : e.property = "textContent" <;> simp [h]

lemma applyEditTree_nids (M : String → Nat → Bool) (e : StyleEdit)
    (tree : List DomNode) :
    (applyEditTree M e tree).map DomNode.nid = tree.map DomNode.nid := by
  unfold applyEditTree
  induction tree with
  | nil => rfl
  | cons n rest ih =>
    simp only [List.map_cons, List.map_map] at *
    refine congrArg₂ _ ?_ ih
    by_cases h : M e.selector n.nid <;> simp [h, applyEditNode_nid]

lemma applyEditTree_of_no_match (M : String → Nat → Bool) (e : StyleEdit)
    (tree : List DomNode) (h : ∀ n ∈ tree, M e.selector n.nid = false) :
    applyEditTree M e tree = tree := by
  unfold applyEditTree
  induction tree with
  | nil => rfl
  | cons n rest ih =>
    rw [List.map_cons]
    have h1 := h n (by simp)
    rw [h1]
    simp only [Bool.false_eq_true, if_false]
    refine congrArg _ (ih fun m hm => h m (by simp [hm]))

lemma replayEdits_append (M : String → Nat → Bool) (a b : List StyleEdit)
    (tree : List DomNode) :
    replayEdits M (a ++ b) tree = replayEdits M b (replayEdits M a tree) := by
  unfold replayEdits
  rw [List.foldl_append]

lemma replayEdits_nids (M : String → Nat → Bool) (edits : List StyleEdit)
    (tree : List DomNode) :
    (replayEdits M edits tree).map DomNode.nid = tree.map DomNode.nid := by
  unfold replayEdits
  induction edits generalizing tree with
  | nil => rfl
  | cons e rest ih =>
    rw [List.foldl_cons]
    rw [ih (applyEditTree M e tree), applyEditTree_nids]

lemma replayEdits_cons (M : String → Nat → Bool) (e : StyleEdit)
    (rest : List StyleEdit) (tree : List DomNode) :
    replayEdits M (e :: rest) tree = replayEdits M rest (applyEditTree M e tree) := by
  unfold replayEdits
  rw [List.foldl_cons]

/-- C7: during replay of a ledger against a freshly rendered tree, an entry
whose selector matches zero nodes of the tree is silently skipped (replaying
with it gives exactly the same tree as replaying without it, so it aborts
nothing), while every entry is still resolved and applied to every node its
selector matches. -/
theorem replay_skips_orphan_entries (M : String → Nat → Bool)
    (pre post : List StyleEdit) (e : StyleEdit) (tree : List DomNode)
    (h : ∀ n ∈ tree, M e.selector n.nid = false) :
    replayEdits M (pre ++ e :: post) tree = replayEdits M (pre ++ post) tree ∧
    ∀ (e' : StyleEdit) (t : List DomNode) (i : Nat) (n : DomNode),
      t[i]? = some n →
      (applyEditTree M e' t)[i]? =
        some (if M e'.selector n.nid then applyEditNode e' n else n) := by
  constructor
  · rw [replayEdits_append, replayEdits_append, replayEdits_cons]
    refine congrArg _ (applyEditTree_of_no_match _ _ _ fun n hn => ?_)
    have hmem : n.nid ∈ (replayEdits M pre tree).map DomNode.nid :=
      List.mem_map_of_mem _ hn
    rw [replayEdits_nids] at hmem
    obtain ⟨m, hm, hmn⟩ := List.mem_map.mp hmem
    rw [← hmn]
    exact h m hm
  · intro e' t i n hn
    unfold applyEditTree
    rw [List.getElem?_map, hn]
    rfl

/-- Witness for `replay_skips_orphan_entries`: a two-node tree, a three-entry
ledger whose middle entry resolves to nothing. -/
theorem replay_skips_orphan_entries_witness :
    replayEdits (fun s nid => s == "#a" && nid == 1)
      ([⟨"#a", "color", "red", 1⟩] ++ ⟨"#gone", "color", "blue", 2⟩ ::
        [⟨"#a", "width", "5px", 3⟩])
      [⟨1, "x", []⟩, ⟨2, "y", []⟩] =
    replayEdits (fun s nid => s == "#a" && nid == 1)
      ([⟨"#a", "color", "red", 1⟩] ++ [⟨"#a", "width", "5px", 3⟩])
      [⟨1, "x", []⟩, ⟨2, "y", []⟩] :=
  (replay_skips_orphan_entries (fun s nid => s == "#a" && nid == 1)
    [⟨"#a", "color", "red", 1⟩] [⟨"#a", "width", "5px", 3⟩]
    ⟨"#gone", "color", "blue", 2⟩ [⟨1, "x", []⟩, ⟨2, "y", []⟩]
    (by decide)).1

/-! ## Persistence suppression during replay -/

/-- The persistence-relevant state: whether the rendering surface currently
carries the `data-applying-edits` attribute, and the persisted ledger in the
external store. -/
structure PersistState where
  applying : Bool
  store : List StyleEdit
deriving Repr, DecidableEq

/-- The deferred (debounced) save scheduled by `addStyleEdit` (App.tsx lines
3082-3090; identically part_002 lines 1355-1363): when the timer fires, the
save is skipped iff the rendering surface carries the applying flag, otherwise
the pending ledger is written to the store. -/
def fireDeferredSave (s : PersistState) (pending : List StyleEdit) : PersistState :=
  if s.applying then s else { s with store := pending }

/-- `applyStyleEdits` (part_002 lines 1372-1431): set `data-applying-edits`,
apply every entry of the ledger to the tree, then clear the flag. Returns the
new tree, the state the replay runs in, and the state afterwards. -/
def applyStyleEditsRun (M : String → Nat → Bool) (edits : List StyleEdit)
    (tree : List DomNode) (s : PersistState) :
    List DomNode × PersistState × PersistState :=
  let during : PersistState := { s with applying := true }
  (replayEdits M edits tree, during, { during with applying := false })

/-- C8: while the applying flag is set, a deferred save firing does not persist
anything — the state (in particular the external store) is left unchanged; the
state `applyStyleEdits` runs in has the flag set, so any record's debounced
save firing during replay leaves the store as it was, and the flag is cleared
afterwards. -/
theorem applying_flag_suppresses_persist (s : PersistState)
    (pending : List StyleEdit) (h : s.applying = true) :
    fireDeferredSave s pending = s ∧
    ∀ (M : String → Nat → Bool) (edits pending' : List StyleEdit)
      (tree : List DomNode) (s0 : PersistState),
      (applyStyleEditsRun M edits tree s0).2.1.applying = true ∧
      (fireDeferredSave (applyStyleEditsRun M edits tree s0).2.1 pending').store =
        s0.store ∧
      (applyStyleEditsRun M edits tree s0).2.2.applying = false := by
  refine ⟨by simp [fireDeferredSave, h], fun M edits pending' tree s0 => ?_⟩
  refine ⟨rfl, ?_, rfl⟩
  simp [applyStyleEditsRun, fireDeferredSave]

/-- Witness for `applying_flag_suppresses_persist`. -/
theorem applying_flag_suppresses_persist_witness :
    fireDeferredSave ⟨true, []⟩ [⟨".a", "color", "red", 1⟩] = ⟨true, []⟩ :=
  (applying_flag_suppresses_persist ⟨true, []⟩ [⟨".a", "color", "red", 1⟩]
    (by decide)).1

/-! ## LivePreview `addStyleEdit`: immediate application and the no-project guard -/

/-- `localStorage.getItem` over an association-list model of the store. -/
def storeGet (st : List (String × List StyleEdit)) (k : String) :
    Option (List StyleEdit) :=
  ((st.filter fun e => e.1 == k).head?).map (fun e => e.2)

/-- `localStorage.setItem`: replace the entry for the key. -/
def storeSet (st : List (String × List StyleEdit)) (k : String)
    (v : List StyleEdit) : List (String × List StyleEdit) :=
  (st.filter fun e => !(e.1 == k)) ++ [(k, v)]

/-- The LivePreview state `addStyleEdit` touches: the current project id (if
any), the external store, and the rendered tree. -/
structure LivePreviewState where
  projectId : Option String
  storage : List (String × List StyleEdit)
  tree : List DomNode
deriving Repr, DecidableEq

/-- LivePreview's `addStyleEdit` (App.tsx lines 590-619): bail out when
`currentProject?.id` is falsy (no project, or an absent/empty id); otherwise
write the updated `edits-<id>` ledger to the store and immediately apply the
edit to every node in the rendered content matching the selector. -/
def lpAddStyleEdit (M : String → Nat → Bool) (st : LivePreviewState)
    (selector property value : String) (now : Nat) : LivePreviewState :=
  match st.projectId with
  | none => st
  | some pid =>
    if pid = "" then st
    else
      let key := "edits-" ++ pid
      let existing := (storeGet st.storage key).getD []
      let edits := recordEdit existing selector property value now
      { st with
        storage := storeSet st.storage key edits,
        tree := applyEditTree M ⟨selector, property, value, now⟩ st.tree }

lemma getStyle_applyEditNode (e : StyleEdit) (n : DomNode)
    (h : e.property ≠ "textContent") :
    getStyle (applyEditNode e n) e.property = some (e.value, true) := by
  unfold applyEditNode
  rw [if_neg h]
  unfold getStyle setStyleImportant
  simp only [List.filter_append, List.filter_filter]
  rw [List.filter_eq_nil_iff.mpr, List.nil_append]
  · simp
  · intro d _
    by_cases hd : d.1 = e.property <;> simp [hd]

/-- C9: a `record` call on the LivePreview immediately mutates every node of
the rendered content matching the selector — not only the node the user
selected: every matching position of the tree (hence any two distinct nodes
sharing the computed selector) gets the edit, which sets the node's text for
the `textContent` sentinel and otherwise writes the style property with
important priority. Non-matching nodes are untouched. -/
theorem record_applies_to_all_matches (M : String → Nat → Bool)
    (st : LivePreviewState) (pid selector property value : String) (now : Nat)
    (hpid : st.projectId = some pid) (hne : pid ≠ "") :
    (∀ (i : Nat) (n : DomNode), st.tree[i]? = some n →
      (M selector n.nid = true →
        (lpAddStyleEdit M st selector property value now).tree[i]? =
          some (applyEditNode ⟨selector, property, value, now⟩ n)) ∧
      (M selector n.nid = false →
        (lpAddStyleEdit M st selector property value now).tree[i]? = some n)) ∧
    (∀ n : DomNode,
      (property = "textContent" →
        applyEditNode ⟨selector, property, value, now⟩ n =
          { n with text := value }) ∧
      (property ≠ "textContent" →
        getStyle (applyEditNode ⟨selector, property, value, now⟩ n) property =
          some (value, true))) := by
  constructor
  · intro i n hn
    have htree : (lpAddStyleEdit M st selector property value now).tree =
        applyEditTree M ⟨selector, property, value, now⟩ st.tree := by
      unfold lpAddStyleEdit
      rw [hpid]
      simp [hne]
    rw [htree]
    unfold applyEditTree
    rw [List.getElem?_map, hn]
    constructor
    · intro hm
      simp [hm]
    · intro hm
      simp [hm]
  · intro n
    refine ⟨fun hp => ?_, fun hp => getStyle_applyEditNode _ _ hp⟩
    unfold applyEditNode
    rw [if_pos hp]

/-- Witness for `record_applies_to_all_matches`: one edit changes both of two
distinct nodes matching the same selector. -/
theorem record_applies_to_all_matches_witness :
    (lpAddStyleEdit (fun s nid => s == ".card" && (nid == 1 || nid == 2))
      ⟨some "p1", [], [⟨1, "x", []⟩, ⟨2, "y", []⟩]⟩
      ".card" "color" "red" 7).tree[1]? =
      some (applyEditNode ⟨".card", "color", "red", 7⟩ ⟨2, "y", []⟩) :=
  (((record_applies_to_all_matches
      (fun s nid => s == ".card" && (nid == 1 || nid == 2))
      ⟨some "p1", [], [⟨1, "x", []⟩, ⟨2, "y", []⟩]⟩
      "p1" ".card" "color" "red" 7 (by decide) (by decide)).1
    1 ⟨2, "y", []⟩ (by decide)).1) (by decide)

/-- C10: when no current project identifier is available (`currentProject?.id`
falsy), LivePreview's `addStyleEdit` is a total no-op: the store is not
written, no ledger entry is created, and no rendered node is mutated — the
whole state is returned unchanged. -/
theorem record_without_project_is_noop (M : String → Nat → Bool)
    (st : LivePreviewState) (selector property value : String) (now : Nat)
    (h : st.projectId = none ∨ st.projectId = some "") :
    lpAddStyleEdit M st selector property value now = st := by
  unfold lpAddStyleEdit
  rcases h with h | h <;> simp [h]

/-- Witness for `record_without_project_is_noop`. -/
theorem record_without_project_is_noop_witness :
    lpAddStyleEdit (fun _ _ => true)
      ⟨none, [], [⟨1, "x", []⟩]⟩ ".card" "color" "red" 7 =
      ⟨none, [], [⟨1, "x", []⟩]⟩ :=
  record_without_project_is_noop (fun _ _ => true)
    ⟨none, [], [⟨1, "x", []⟩]⟩ ".card" "color" "red" 7 (Or.inl rfl)

/-! ## Selector codec -/

/-- The character class JS `trim` / `\s` removes (the members that can occur in
the generated documents' class strings). -/
def jsWhitespaceChar (c : Char) : Bool :=
  c = ' ' || c = '\t' || c = '\n' || c = '\r' ||
    c = '\x0b' || c = '\x0c' || c = Char.ofNat 0xa0

/-- JS `s.trim()` on character lists. -/
def jsTrim (s : List Char) : List Char :=
  ((s.dropWhile jsWhitespaceChar).reverse.dropWhile jsWhitespaceChar).reverse

/-- JS `s.split(sep)` for a one-character separator: empty pieces are kept
(`"".split(' ')` is `[""]`, `"a  b".split(' ')` is `["a","","b"]`). -/
def jsSplitOn (sep : Char) : List Char → List (List Char)
  | [] => [[]]
  | c :: cs =>
    match jsSplitOn sep cs with
    | [] => [[c]]
    | t :: ts => if c = sep then [] :: t :: ts else (c :: t) :: ts

/-- JS `s.toLowerCase()` as used on (ASCII) tag names. -/
def jsToLower (s : String) : String := ⟨s.data.map Char.toLower⟩

/-- A visual node as the selector computation sees it: `id`, `className`, the
(uppercase DOM) `tagName` and, when the node has a parent, the tag names of the
parent's children together with this node's position among them. -/
structure SelNode where
  id : String
  className : String
  tagName : String
  parent : Option (List String × Nat)

/-- The class part `element.className.split(' ').filter(c => c.trim()).join('.')`
of `generateSelectorForElement`. -/
def classTokensStr (className : String) : String :=
  String.intercalate "."
    (((jsSplitOn ' ' className.data).filter fun t => jsTrim t ≠ []).map
      fun t => (⟨t⟩ : String))

/-- `generateSelectorForElement` (App.tsx lines 2994-3016), the selector the
edit-tracking path derives: `#id` if the id is truthy; else a dot-joined
selector of ALL nonempty class tokens if both the class string and the joined
token string are truthy; else `tag:nth-of-type(k)` against the parent's
children (with `k - 1` the number of earlier same-tag siblings, which is
`indexOf` of the node in the filtered sibling list); else the bare lowercase
tag name. -/
def generateSelectorForElement (e : SelNode) : String :=
  if e.id ≠ "" then "#" ++ e.id
  else
    let classes := classTokensStr e.className
    if e.className ≠ "" ∧ classes ≠ "" then "." ++ classes
    else
      match e.parent with
      | some (childTags, i) =>
        jsToLower e.tagName ++ ":nth-of-type(" ++
          toString ((childTags.take i).count e.tagName + 1) ++ ")"
      | none => jsToLower e.tagName

/-- `getElementSelector` (App.tsx lines 86-92), the selector attached to a
selection event: `#id`, else a dot plus the FIRST `split(' ')` piece of the
class string, else the bare lowercase tag name (no nth-of-type fallback). -/
def getElementSelector (e : SelNode) : String :=
  if e.id ≠ "" then "#" ++ e.id
  else if e.className ≠ "" then
    "." ++ (⟨(jsSplitOn ' ' e.className.data).headD []⟩ : String)
  else jsToLower e.tagName

/-- C1 counterexample: for a node carrying the two class tokens `hero title`,
the edit-tracking selector computation returns `.hero.title` — all tokens
joined — not `.hero` as the claim ("the first class token only") states; and
the selection-event variant falls back to the bare tag name, never
`tag:nth-of-type(k)`. -/
theorem selector_codec_counterexample :
    generateSelectorForElement ⟨"", "hero title", "H1", some (["H1"], 0)⟩ =
      ".hero.title" ∧
    ".hero.title" ≠ ".hero" ∧
    getElementSelector ⟨"", "", "DIV", some (["DIV"], 0)⟩ = "div" ∧
    "div" ≠ "div:nth-of-type(1)" := by
  refine ⟨by decide, by decide, by decide, by decide⟩

/-- C1 amended: `generateSelectorForElement` returns, in priority order,
`#id` when the node carries a (nonempty) identity attribute — regardless of
the class list; otherwise `.t1.t2...tk`, every nonempty class token joined
with dots (not only the first), when at least one such token exists; otherwise
`tag:nth-of-type(k)` with `k` the 1-based position among same-tag siblings
when the node has a parent; otherwise the bare lowercase tag name. -/
theorem selector_codec_amended (e : SelNode) :
    (e.id ≠ "" → generateSelectorForElement e = "#" ++ e.id) ∧
    (e.id = "" → classTokensStr e.className ≠ "" →
      generateSelectorForElement e = "." ++ classTokensStr e.className) ∧
    (e.id = "" → classTokensStr e.className = "" →
      ∀ childTags i, e.parent = some (childTags, i) →
        generateSelectorForElement e =
          jsToLower e.tagName ++ ":nth-of-type(" ++
            toString ((childTags.take i).count e.tagName + 1) ++ ")") ∧
    (e.id = "" → classTokensStr e.className = "" → e.parent = none →
      generateSelectorForElement e = jsToLower e.tagName) := by
  refine ⟨fun h => ?_, fun h hc => ?_, fun h hc childTags i hp => ?_, fun h hc hp => ?_⟩
  · unfold generateSelectorForElement
    rw [if_pos h]
  · have hcn : e.className ≠ "" := by
      intro hnil
      rw [hnil] at hc
      exact hc (by decide)
    unfold generateSelectorForElement
    rw [if_neg (by simp [h]), if_pos ⟨hcn, hc⟩]
  · unfold generateSelectorForElement
    rw [if_neg (by simp [h]), if_neg (by simp [hc]), hp]
  · unfold generateSelectorForElement
    rw [if_neg (by simp [h]), if_neg (by simp [hc]), hp]

/-- Witness for `selector_codec_amended`: the id branch wins over classes, and
the class branch joins both tokens. -/
theorem selector_codec_amended_witness :
    generateSelectorForElement ⟨"main-cta", "hero title", "H1", none⟩ =
      "#" ++ "main-cta" ∧
    generateSelectorForElement ⟨"", "hero title", "H1", none⟩ =
      "." ++ classTokensStr "hero title" :=
  ⟨(selector_codec_amended ⟨"main-cta", "hero title", "H1", none⟩).1 (by decide),
   (selector_codec_amended ⟨"", "hero title", "H1", none⟩).2.1 rfl (by decide)⟩

/-! ## Render Host fragment stripping -/

/-- The emoji/pictographic test of `loadPreviewContent` (App.tsx line 253): the
text contains a code point in one of six pictographic ranges. -/
def emojiChar (c : Char) : Bool :=
  (0x1F600 ≤ c.toNat && c.toNat ≤ 0x1F64F) ||
  (0x1F300 ≤ c.toNat && c.toNat ≤ 0x1F5FF) ||
  (0x1F680 ≤ c.toNat && c.toNat ≤ 0x1F6FF) ||
  (0x1F1E0 ≤ c.toNat && c.toNat ≤ 0x1F1FF) ||
  (0x2600 ≤ c.toNat && c.toNat ≤ 0x26FF) ||
  (0x2700 ≤ c.toNat && c.toNat ≤ 0x27BF)

/-- JS `text.length` counts UTF-16 units: astral code points count twice. -/
def utf16Len (s : List Char) : Nat :=
  (s.map fun c => if 0x10000 ≤ c.toNat then 2 else 1).sum

/-- ASCII letters and digits, the literal part of the final character class of
App.tsx line 275. -/
def asciiAlnum (c : Char) : Bool :=
  ('a' ≤ c && c ≤ 'z') || ('A' ≤ c && c ≤ 'Z') || ('0' ≤ c && c ≤ '9')

/-- JS `text.includes(pat)`: `pat` occurs as a contiguous substring. -/
def listIsInfix (p : List Char) : List Char → Bool
  | [] => p.isEmpty
  | c :: cs => p.isPrefixOf (c :: cs) || listIsInfix p cs

/-- The removal condition of `loadPreviewContent` (App.tsx lines 249-280)
evaluated on the trimmed text of one text node, disjunct for disjunct: never
remove when the text contains a pictographic character; otherwise remove short
(< 50 UTF-16 units) text that looks like leaked markup (angle brackets,
escaped entities, the bare word html, ellipsis-wrapped html), is empty or pure
whitespace, or consists only of `<`/`>`/`/`/whitespace or of
non-alphanumeric non-pictographic characters. -/
def removalConditions (text : List Char) : Bool :=
  !(text.any emojiChar) && utf16Len text < 50 && (
    (listIsInfix "<".data text) ||
    (listIsInfix "html".data text) ||
    (listIsInfix "<!".data text) ||
    (listIsInfix "/>".data text) ||
    (listIsInfix "&lt;".data text) ||
    (listIsInfix "&gt;".data text) ||
    (text == []) ||
    (text == "html".data) ||
    (text == "HTML".data) ||
    (text.map Char.toLower == "html".data) ||
    (listIsInfix "...html".data text) ||
    (listIsInfix "html...".data text) ||
    ("...".data.isPrefixOf text && listIsInfix "html".data text) ||
    ("...".data.isSuffixOf text && listIsInfix "html".data text) ||
    (text.all fun c => c = '<' || c = '>' || c = '/' || jsWhitespaceChar c) ||
    (text.map Char.toLower == "html".data) ||
    (text.map Char.toLower == "...html".data) ||
    (text.map Char.toLower == "html...".data) ||
    (text.all jsWhitespaceChar) ||
    (text.all fun c => !(asciiAlnum c || emojiChar c)))

/-- The per-node heuristic: trim, then test the removal condition. -/
def shouldRemoveTextNode (raw : List Char) : Bool :=
  removalConditions (jsTrim raw)

/-- The walk over the collected text nodes: every node satisfying the removal
condition is deleted, the others survive. -/
def stripFragments (textNodes : List (List Char)) : List (List Char) :=
  textNodes.filter fun t => !(shouldRemoveTextNode t)

lemma emojiChar_ge (c : Char) (h : emojiChar c = true) : 0x2600 ≤ c.toNat := by
  simp [emojiChar] at h
  omega

lemma emojiChar_not_ws (c : Char) (h : emojiChar c = true) :
    jsWhitespaceChar c = false := by
  have hge := emojiChar_ge c h
  have hne : ∀ d : Char, d.toNat ≤ 0xa0 → ¬ (c = d) := by
    intro d hd hcd
    rw [hcd] at hge
    omega
  simp [jsWhitespaceChar, hne ' ' (by decide), hne '\t' (by decide),
    hne '\n' (by decide), hne '\r' (by decide), hne '\x0b' (by decide),
    hne '\x0c' (by decide), hne (Char.ofNat 0xa0) (by decide)]

lemma jsTrim_single_emoji (c : Char) (h : emojiChar c = true) :
    jsTrim [c] = [c] := by
  simp [jsTrim, List.dropWhile, emojiChar_not_ws c h]

lemma shouldRemove_single_emoji (c : Char) (h : emojiChar c = true) :
    shouldRemoveTextNode [c] = false := by
  unfold shouldRemoveTextNode
  rw [jsTrim_single_emoji c h]
  simp [removalConditions, h]

/-- C5: the fragment-stripping heuristic removes a text node whose trimmed
content is exactly `...html`, and preserves (never deletes) a text node whose
content is a single emoji/pictographic character. -/
theorem fragment_stripping_heuristic (c : Char) (h : emojiChar c = true)
    (nodes : List (List Char)) :
    shouldRemoveTextNode ("...html".data) = true ∧
    shouldRemoveTextNode [c] = false ∧
    stripFragments ("...html".data :: nodes) = stripFragments nodes ∧
    stripFragments ([c] :: nodes) = [c] :: stripFragments nodes := by
  refine ⟨by decide, shouldRemove_single_emoji c h, ?_, ?_⟩
  · unfold stripFragments
    rw [List.filter_cons]
    simp [show shouldRemoveTextNode ("...html".data) = true from by decide]
  · unfold stripFragments
    rw [List.filter_cons]
    simp [shouldRemove_single_emoji c h]

/-- Witness for `fragment_stripping_heuristic` at the rocket emoji U+1F680. -/
theorem fragment_stripping_heuristic_witness :
    shouldRemoveTextNode ("...html".data) = true ∧
    shouldRemoveTextNode [Char.ofNat 0x1F680] = false :=
  ⟨(fragment_stripping_heuristic (Char.ofNat 0x1F680) (by decide) []).1,
   (fragment_stripping_heuristic (Char.ofNat 0x1F680) (by decide) []).2.1⟩

/-! ## Inline text editor -/

/-- The outcome of finishing an inline edit: the text the original node ends up
with, and the ledger entries recorded by the commit itself. -/
structure InlineEditOutcome where
  elementText : String
  recorded : List StyleEdit
deriving Repr, DecidableEq

/-- `finishEdit` (App.tsx lines 160-174): when saving and the surrogate's text
differs from the original, the original node's text is replaced by the
surrogate's; otherwise (cancel, or no change) the original text stays. In
both branches the surrogate is swapped back out for the original node and —
in this code path — nothing is written to the Edit Ledger. -/
def finishEdit (save : Bool) (originalText editorText : String) :
    InlineEditOutcome :=
  if save && !(editorText == originalText) then ⟨editorText, []⟩
  else ⟨originalText, []⟩

/-- An event reaching the surrogate editor. -/
inductive EditorEvent
  | blur
  | keydown (key : String) (shiftKey ctrlKey altKey metaKey : Bool)

/-- The surrogate's event wiring (App.tsx lines 177-186): blur commits; Enter
commits unless Shift is held (no other modifier is consulted); Escape cancels;
everything else leaves the edit open (`none`). The payload is the `save` flag
passed to `finishEdit`. -/
def editorEventAction : EditorEvent → Option Bool
  | .blur => some true
  | .keydown key shift _ _ _ =>
    if key = "Enter" then (if shift then none else some true)
    else if key = "Escape" then some false
    else none

/-- C6 counterexample: committing an inline edit (blur, or Enter without
Shift) replaces the node's text but records NOTHING in the Edit Ledger — no
`textContent` entry is created by this path, contrary to the claim; moreover
Enter with the Ctrl modifier (a "modifier") still commits. -/
theorem inline_edit_counterexample :
    editorEventAction .blur = some true ∧
    (finishEdit true "Welcome" "Hello").elementText = "Hello" ∧
    (finishEdit true "Welcome" "Hello").recorded = [] ∧
    editorEventAction (.keydown "Enter" false true false false) = some true := by
  refine ⟨rfl, by decide, by decide, by decide⟩

/-- C6 amended: on loss of focus, or on Enter without Shift (other modifiers
are not consulted), the surrogate's text replaces the original node's text
when it differs, and the commit itself records no Edit Ledger entry; on
Escape the original node is restored with its text unmodified and no edit is
recorded. -/
theorem inline_edit_commit_rule (orig editor : String)
    (shift ctrl alt meta : Bool) :
    editorEventAction .blur = some true ∧
    editorEventAction (.keydown "Enter" shift ctrl alt meta) =
      (if shift then none else some true) ∧
    editorEventAction (.keydown "Escape" shift ctrl alt meta) = some false ∧
    finishEdit true orig editor =
      ⟨if editor == orig then orig else editor, []⟩ ∧
    finishEdit false orig editor = ⟨orig, []⟩ := by
  refine ⟨rfl, by simp [editorEventAction], by simp [editorEventAction], ?_, ?_⟩
  · unfold finishEdit
    by_cases h : editor == orig
    · simp [h]
    · simp [h]
  · unfold finishEdit
    simp

/-! ## Gradient codec

The Property Inspector extracts gradient colors with four JS regexes tried in
priority order (App.tsx lines 974-993) and re-encodes an edited color list as
`linear-gradient(135deg, …)` with evenly spaced percentage stops (lines
1081-1086). The regexes are embedded as deterministic matchers over `List
Char`; `matchAll` is a scanner that, from left to right, either takes a match
and continues after it, or advances one position — exactly the `lastIndex`
discipline of a JS global regex. -/

/-- The `\s` class of the patterns (members relevant to gradient strings). -/
def wsChar (c : Char) : Bool :=
  c = ' ' || c = '\t' || c = '\n' || c = '\r' || c = '\x0b' || c = '\x0c'

/-- `[0-9a-fA-F]`. -/
def hexChar (c : Char) : Bool :=
  c.isDigit || ('a' ≤ c && c ≤ 'f') || ('A' ≤ c && c ≤ 'F')

/-- `[\d.]`. -/
def digitDotChar (c : Char) : Bool := c.isDigit || c = '.'

/-- Match a literal character sequence, returning the remainder. -/
def litP : List Char → List Char → Option (List Char)
  | [], l => some l
  | _ :: _, [] => none
  | p :: ps, c :: cs => if c = p then litP ps cs else none

/-- `a?`: consume the character when present (greedy; the following literal
differs from `a` in every use, so no backtracking is needed). -/
def optCharP (a : Char) : List Char → List Char
  | [] => []
  | c :: cs => if c = a then cs else c :: cs

/-- Match one literal character. -/
def charP (a : Char) : List Char → Option (List Char)
  | [] => none
  | c :: cs => if c = a then some cs else none

/-- `\s*` (greedy; in the patterns it is always followed by a non-`\s`
literal or class, so greediness is exact). -/
def wsP (l : List Char) : List Char := l.dropWhile wsChar

/-- `(cls)+` for a character class (greedy, one or more). -/
def classPlusP (p : Char → Bool) : List Char → Option (List Char)
  | [] => none
  | c :: cs => if p c then some (cs.dropWhile p) else none

/-- The pattern `rgba?\(\s*(\d+)\s*,\s*(\d+)\s*,\s*(\d+)\s*(?:,\s*([\d.]+))?\s*\)`
(App.tsx line 976): on success, the remainder after the match. The optional
alpha group is greedy — tried first, with fallback to the group-free reading,
mirroring regex backtracking. -/
def rgbCore (l : List Char) : Option (List Char) := do
  let l ← litP ['r','g','b'] l
  let l := optCharP 'a' l
  let l ← charP '(' l
  let l ← classPlusP Char.isDigit (wsP l)
  let l ← charP ',' (wsP l)
  let l ← classPlusP Char.isDigit (wsP l)
  let l ← charP ',' (wsP l)
  let l ← classPlusP Char.isDigit (wsP l)
  let l := wsP l
  match (do
      let a ← charP ',' l
      let a ← classPlusP digitDotChar (wsP a)
      charP ')' (wsP a) : Option (List Char)) with
  | some r => some r
  | none => charP ')' l

/-- The pattern `hsla?\(\s*(\d+)\s*,\s*(\d+)%\s*,\s*(\d+)%\s*(?:,\s*([\d.]+))?\s*\)`
(App.tsx line 981). -/
def hslCore (l : List Char) : Option (List Char) := do
  let l ← litP ['h','s','l'] l
  let l := optCharP 'a' l
  let l ← charP '(' l
  let l ← classPlusP Char.isDigit (wsP l)
  let l ← charP ',' (wsP l)
  let l ← classPlusP Char.isDigit (wsP l)
  let l ← charP '%' l
  let l ← charP ',' (wsP l)
  let l ← classPlusP Char.isDigit (wsP l)
  let l ← charP '%' l
  let l := wsP l
  match (do
      let a ← charP ',' l
      let a ← classPlusP digitDotChar (wsP a)
      charP ')' (wsP a) : Option (List Char)) with
  | some r => some r
  | none => charP ')' l

/-- The patterns `#([0-9a-fA-F]{6})` and `#([0-9a-fA-F]{3})` (App.tsx lines
978-979): `#` followed by exactly `k` hex digits. -/
def hexCore (k : Nat) (l : List Char) : Option (List Char) := do
  let l ← charP '#' l
  if (l.take k).length = k ∧ (l.take k).all hexChar then some (l.drop k)
  else none

/-- Wrap a remainder-matcher into a `(matched text, remainder)` matcher, the
shape `matchAll` consumes (`match[0]` is the matched text). -/
def mkTry (core : List Char → Option (List Char)) (l : List Char) :
    Option (List Char × List Char) :=
  match core l with
  | some rest => some (l.take (l.length - rest.length), rest)
  | none => none

def tryRGBTok : List Char → Option (List Char × List Char) := mkTry rgbCore

def tryHex6Tok : List Char → Option (List Char × List Char) := mkTry (hexCore 6)

def tryHex3Tok : List Char → Option (List Char × List Char) := mkTry (hexCore 3)

def tryHSLTok : List Char → Option (List Char × List Char) := mkTry hslCore

/-- One `matchAll` step stream: at each position try the pattern; on a match
take the matched text and continue after it (JS advances `lastIndex` by the
match length, and by one position when a match consumes nothing); otherwise
advance one position. Fuel is the string length, which the scan never
outruns. -/
def scanA (tryM : List Char → Option (List Char × List Char)) :
    Nat → List Char → List (List Char)
  | 0, _ => []
  | _ + 1, [] => []
  | fuel + 1, c :: cs =>
    match tryM (c :: cs) with
    | some (tok, rest) =>
      if rest.length ≤ cs.length then tok :: scanA tryM fuel rest
      else tok :: scanA tryM fuel cs
    | none => scanA tryM fuel cs

/-- `Array.from(source.matchAll(pattern)).map(m => m[0])`. -/
def scanAll (tryM : List Char → Option (List Char × List Char))
    (l : List Char) : List (List Char) :=
  scanA tryM l.length l

/-- PropertiesPanel gradient color extraction (App.tsx lines 974-993): run the
four patterns in priority order — rgb/rgba, 6-digit hex, 3-digit hex,
hsl/hsla — and keep every match of the first pattern that yields any; empty
when none matches (the caller then falls back to a representative color). -/
def extractGradientColors (l : List Char) : List (List Char) :=
  match scanAll tryRGBTok l with
  | r :: rs => r :: rs
  | [] =>
    match scanAll tryHex6Tok l with
    | r :: rs => r :: rs
    | [] =>
      match scanAll tryHex3Tok l with
      | r :: rs => r :: rs
      | [] => scanAll tryHSLTok l

/-- The characters of `linear-gradient(135deg, `. -/
def gradientHeader : List Char :=
  ['l','i','n','e','a','r','-','g','r','a','d','i','e','n','t','(',
   '1','3','5','d','e','g',',',' ']

/-- JS `Array.prototype.join(', ')`. -/
def joinCS : List (List Char) → List Char
  | [] => []
  | [x] => x
  | x :: y :: zs => x ++ ',' :: ' ' :: joinCS (y :: zs)

/-- `colors.map((color, i) => color + ' ' + pct + '%').join(', ')` — the stop
list of the re-encoded gradient (App.tsx lines 1081-1084); the percentage
texts are passed in (`pcts`), one per color. -/
def colorStopsBody (colors pcts : List (List Char)) : List Char :=
  joinCS (List.zipWith (fun c p => c ++ ' ' :: (p ++ ['%'])) colors pcts)

/-- The re-encoded gradient string `linear-gradient(135deg, ${colorStops})`
(App.tsx line 1086). -/
def encodeGradient (colors pcts : List (List Char)) : List Char :=
  gradientHeader ++ colorStopsBody colors pcts ++ [')']

lemma digit_not_ws (c : Char) (h : c.isDigit = true) : wsChar c = false := by
  have hne : ∀ d : Char, d.isDigit = false → ¬ (c = d) := fun d hd hcd => by
    rw [hcd] at h
    rw [h] at hd
    cases hd
  simp [wsChar, hne ' ' (by decide), hne '\t' (by decide), hne '\n' (by decide),
    hne '\r' (by decide), hne '\x0b' (by decide), hne '\x0c' (by decide)]

lemma digitDot_not_ws (c : Char) (h : digitDotChar c = true) :
    wsChar c = false := by
  simp only [digitDotChar, Bool.or_eq_true, decide_eq_true_eq] at h
  rcases h with h1 | h1
  · exact digit_not_ws c h1
  · subst h1
    decide

lemma dropWhile_append_exact (p : Char → Bool) (a : List Char) (c : Char)
    (rest : List Char) (hall : a.all p = true) (hc : p c = false) :
    (a ++ c :: rest).dropWhile p = c :: rest := by
  induction a with
  | nil => simp [List.dropWhile, hc]
  | cons d ds ih =>
    simp only [List.all_cons, Bool.and_eq_true] at hall
    simp [List.dropWhile, hall.1, ih hall.2]

lemma classPlusP_consume (p : Char → Bool) (d : Char) (ds : List Char)
    (c : Char) (rest : List Char) (hd : p d = true) (hall : ds.all p = true)
    (hc : p c = false) :
    classPlusP p (d :: (ds ++ c :: rest)) = some (c :: rest) := by
  simp [classPlusP, hd, dropWhile_append_exact p ds c rest hall hc]

lemma wsP_not (c : Char) (cs : List Char) (h : wsChar c = false) :
    wsP (c :: cs) = c :: cs := by
  simp [wsP, List.dropWhile, h]

lemma wsP_ws (c : Char) (cs : List Char) (h : wsChar c = true) :
    wsP (c :: cs) = wsP cs := by
  simp [wsP, List.dropWhile, h]

/-- Canonical `rgb(r, g, b)` / `rgba(r, g, b, a)` token text, the form the
rendered documents and the code's own re-encoding emit. -/
def renderRGB (r g b : List Char) (a : Option (List Char)) : List Char :=
  match a with
  | none =>
    ['r','g','b','('] ++ r ++ [',',' '] ++ g ++ [',',' '] ++ b ++ [')']
  | some al =>
    ['r','g','b','a','('] ++ r ++ [',',' '] ++ g ++ [',',' '] ++ b ++
      [',',' '] ++ al ++ [')']

/-- Canonical `hsl(h, s%, l%)` / `hsla(h, s%, l%, a)` token text. -/
def renderHSL (h s l : List Char) (a : Option (List Char)) : List Char :=
  match a with
  | none =>
    ['h','s','l','('] ++ h ++ [',',' '] ++ s ++ ['%',',',' '] ++ l ++ ['%',')']
  | some al =>
    ['h','s','l','a','('] ++ h ++ [',',' '] ++ s ++ ['%',',',' '] ++ l ++
      ['%',',',' '] ++ al ++ [')']

lemma rgbCore_render (r g b : List Char) (a : Option (List Char))
    (rest : List Char)
    (hr : r ≠ [] ∧ r.all Char.isDigit) (hg : g ≠ [] ∧ g.all Char.isDigit)
    (hb : b ≠ [] ∧ b.all Char.isDigit)
    (ha : ∀ al ∈ a, al ≠ [] ∧ al.all digitDotChar) :
    rgbCore (renderRGB r g b a ++ rest) = some rest := by
  obtain ⟨rne, rall⟩ := hr
  obtain ⟨gne, gall⟩ := hg
  obtain ⟨bne, ball⟩ := hb
  cases r with
  | nil => exact absurd rfl rne
  | cons rd rds =>
  cases g with
  | nil => exact absurd rfl gne
  | cons gd gds =>
  cases b with
  | nil => exact absurd rfl bne
  | cons bd bds =>
  simp only [List.all_cons, Bool.and_eq_true] at rall gall ball
  have d1 : Char.isDigit ',' = false := by decide
  have d2 : Char.isDigit ')' = false := by decide
  have d3 : wsChar ' ' = true := by decide
  have d4 : wsChar ')' = false := by decide
  have d5 : wsChar ',' = false := by decide
  have dcm : digitDotChar ')' = false := by decide
  cases a with
  | none =>
    simp only [renderRGB, List.cons_append, List.nil_append, List.append_assoc]
    simp [rgbCore, litP, optCharP, charP, wsP_not, wsP_ws, classPlusP_consume,
      rall.1, rall.2, gall.1, gall.2, ball.1, ball.2, d1, d2, d3, d4, d5, dcm,
      digit_not_ws rd rall.1, digit_not_ws gd gall.1, digit_not_ws bd ball.1]
  | some al =>
    obtain ⟨alne, alall⟩ := ha al rfl
    cases al with
    | nil => exact absurd rfl alne
    | cons ad ads =>
    simp only [List.all_cons, Bool.and_eq_true] at alall
    simp only [renderRGB, List.cons_append, List.nil_append, List.append_assoc]
    simp [rgbCore, litP, optCharP, charP, wsP_not, wsP_ws, classPlusP_consume,
      rall.1, rall.2, gall.1, gall.2, ball.1, ball.2, alall.1, alall.2,
      d1, d2, d3, d4, d5, dcm,
      digit_not_ws rd rall.1, digit_not_ws gd gall.1, digit_not_ws bd ball.1,
      digitDot_not_ws ad alall.1]

lemma hslCore_render (h s l : List Char) (a : Option (List Char))
    (rest : List Char)
    (hh : h ≠ [] ∧ h.all Char.isDigit) (hs : s ≠ [] ∧ s.all Char.isDigit)
    (hl : l ≠ [] ∧ l.all Char.isDigit)
    (ha : ∀ al ∈ a, al ≠ [] ∧ al.all digitDotChar) :
    hslCore (renderHSL h s l a ++ rest) = some rest := by
  obtain ⟨hne, hall⟩ := hh
  obtain ⟨sne, sall⟩ := hs
  obtain ⟨lne, lall⟩ := hl
  cases h with
  | nil => exact absurd rfl hne
  | cons hd hds =>
  cases s with
  | nil => exact absurd rfl sne
  | cons sd sds =>
  cases l with
  | nil => exact absurd rfl lne
  | cons ld lds =>
  simp only [List.all_cons, Bool.and_eq_true] at hall sall lall
  have d1 : Char.isDigit ',' = false := by decide
  have d2 : Char.isDigit '%' = false := by decide
  have d3 : wsChar ' ' = true := by decide
  have d4 : wsChar '%' = false := by decide
  have d5 : wsChar ',' = false := by decide
  have d6 : wsChar ')' = false := by decide
  have dcm : digitDotChar ')' = false := by decide
  cases a with
  | none =>
    simp only [renderHSL, List.cons_append, List.nil_append, List.append_assoc]
    simp [hslCore, litP, optCharP, charP, wsP_not, wsP_ws, classPlusP_consume,
      hall.1, hall.2, sall.1, sall.2, lall.1, lall.2, d1, d2, d3, d4, d5, d6,
      dcm, digit_not_ws hd hall.1, digit_not_ws sd sall.1,
      digit_not_ws ld lall.1]
  | some al =>
    obtain ⟨alne, alall⟩ := ha al rfl
    cases al with
    | nil => exact absurd rfl alne
    | cons ad ads =>
    simp only [List.all_cons, Bool.and_eq_true] at alall
    simp only [renderHSL, List.cons_append, List.nil_append, List.append_assoc]
    simp [hslCore, litP, optCharP, charP, wsP_not, wsP_ws, classPlusP_consume,
      hall.1, hall.2, sall.1, sall.2, lall.1, lall.2, alall.1, alall.2,
      d1, d2, d3, d4, d5, d6, dcm,
      digit_not_ws hd hall.1, digit_not_ws sd sall.1, digit_not_ws ld lall.1,
      digitDot_not_ws ad alall.1]

lemma hexCore_render (k : Nat) (hx rest : List Char)
    (hlen : hx.length = k) (hall : hx.all hexChar = true) :
    hexCore k (('#' :: hx) ++ rest) = some rest := by
  simp only [List.cons_append]
  simp [hexCore, charP, Option.bind]
  rw [List.take_left' hlen, List.drop_left' hlen]
  simp [hlen, hall]
  exact List.all_eq_true.mp hall

lemma scanA_fuel (tryM : List Char → Option (List Char × List Char)) :
    ∀ f1 f2 l, l.length ≤ f1 → l.length ≤ f2 →
      scanA tryM f1 l = scanA tryM f2 l := by
  intro f1
  induction f1 with
  | zero =>
    intro f2 l h1 _
    have : l = [] := List.length_eq_zero.mp (Nat.le_zero.mp h1)
    subst this
    cases f2 <;> rfl
  | succ k ih =>
    intro f2 l h1 h2
    cases l with
    | nil => cases f2 <;> rfl
    | cons c cs =>
      cases f2 with
      | zero => exact absurd h2 (by simp)
      | succ m =>
        simp only [List.length_cons, Nat.succ_le_succ_iff] at h1 h2
        show (match tryM (c :: cs) with
          | some (tok, rest) =>
            if rest.length ≤ cs.length then tok :: scanA tryM k rest
            else tok :: scanA tryM k cs
          | none => scanA tryM k cs) =
          (match tryM (c :: cs) with
          | some (tok, rest) =>
            if rest.length ≤ cs.length then tok :: scanA tryM m rest
            else tok :: scanA tryM m cs
          | none => scanA tryM m cs)
        cases htry : tryM (c :: cs) with
        | none => exact ih m cs h1 h2
        | some pr =>
          obtain ⟨tok, rest⟩ := pr
          by_cases hlen : rest.length ≤ cs.length
          · simp only [hlen, if_true]
            rw [ih m rest (le_trans hlen h1) (le_trans hlen h2)]
          · simp only [hlen, if_false]
            rw [ih m cs h1 h2]

lemma scanAll_nil (tryM : List Char → Option (List Char × List Char)) :
    scanAll tryM [] = [] := rfl

lemma scanAll_cons_none (tryM : List Char → Option (List Char × List Char))
    (c : Char) (cs : List Char) (h : tryM (c :: cs) = none) :
    scanAll tryM (c :: cs) = scanAll tryM cs := by
  unfold scanAll
  simp only [List.length_cons]
  show (match tryM (c :: cs) with
    | some (tok, rest) =>
      if rest.length ≤ cs.length then tok :: scanA tryM cs.length rest
      else tok :: scanA tryM cs.length cs
    | none => scanA tryM cs.length cs) = scanA tryM cs.length cs
  rw [h]

lemma scanAll_cons_some (tryM : List Char → Option (List Char × List Char))
    (c : Char) (cs tok rest : List Char)
    (h : tryM (c :: cs) = some (tok, rest)) (hle : rest.length ≤ cs.length) :
    scanAll tryM (c :: cs) = tok :: scanAll tryM rest := by
  unfold scanAll
  simp only [List.length_cons]
  show (match tryM (c :: cs) with
    | some (tok, rest) =>
      if rest.length ≤ cs.length then tok :: scanA tryM cs.length rest
      else tok :: scanA tryM cs.length cs
    | none => scanA tryM cs.length cs) = tok :: scanA tryM rest.length rest
  rw [h]
  simp only [hle, if_true]
  rw [scanA_fuel tryM cs.length rest.length rest hle (le_refl _)]

lemma scanAll_match (tryM : List Char → Option (List Char × List Char))
    (tok rest : List Char) (htok : tok ≠ [])
    (h : tryM (tok ++ rest) = some (tok, rest)) :
    scanAll tryM (tok ++ rest) = tok :: scanAll tryM rest := by
  cases tok with
  | nil => exact absurd rfl htok
  | cons c cs0 =>
    rw [List.cons_append] at h ⊢
    exact scanAll_cons_some tryM c (cs0 ++ rest) _ rest h
      (by simp [List.length_append])

lemma scanAll_skip (tryM : List Char → Option (List Char × List Char))
    (startOK : Char → Bool)
    (hfail : ∀ c cs, startOK c = false → tryM (c :: cs) = none)
    (seg rest : List Char) (hseg : ∀ c ∈ seg, startOK c = false) :
    scanAll tryM (seg ++ rest) = scanAll tryM rest := by
  induction seg with
  | nil => rfl
  | cons c cs ih =>
    rw [List.cons_append,
      scanAll_cons_none tryM c (cs ++ rest) (hfail c _ (hseg c (by simp))),
      ih (fun d hd => hseg d (by simp [hd]))]

lemma mkTry_exact (core : List Char → Option (List Char)) (tok rest : List Char)
    (h : core (tok ++ rest) = some rest) :
    mkTry core (tok ++ rest) = some (tok, rest) := by
  unfold mkTry
  rw [h]
  show some ((tok ++ rest).take ((tok ++ rest).length - rest.length), rest) =
    some (tok, rest)
  rw [List.length_append, Nat.add_sub_cancel, List.take_left]

lemma mkTry_none (core : List Char → Option (List Char)) (l : List Char)
    (h : core l = none) : mkTry core l = none := by
  unfold mkTry
  rw [h]

lemma rgbCore_no_r (c : Char) (cs : List Char) (h : (c == 'r') = false) :
    rgbCore (c :: cs) = none := by
  have : ¬ (c = 'r') := by simpa using h
  simp [rgbCore, litP, this]

lemma rgbCore_no_g (c : Char) (cs : List Char) (h : ¬ (c = 'g')) :
    rgbCore ('r' :: c :: cs) = none := by
  simp [rgbCore, litP, h]

lemma hslCore_no_h (c : Char) (cs : List Char) (h : (c == 'h') = false) :
    hslCore (c :: cs) = none := by
  have : ¬ (c = 'h') := by simpa using h
  simp [hslCore, litP, this]

lemma hexCore_no_hash (k : Nat) (c : Char) (cs : List Char)
    (h : (c == '#') = false) : hexCore k (c :: cs) = none := by
  have : ¬ (c = '#') := by simpa using h
  simp [hexCore, charP, this]

lemma hex6_fail_on_hex3 (h3 rest : List Char) (hlen : h3.length = 3) :
    hexCore 6 ('#' :: (h3 ++ ' ' :: rest)) = none := by
  have htake : (h3 ++ ' ' :: rest).take 6 = h3 ++ ' ' :: rest.take 2 := by
    rw [List.take_append_eq_append_take, List.take_of_length_le (by omega), hlen]
    norm_num [List.take_succ_cons]
  have hfalse : ¬ (((h3 ++ ' ' :: rest).take 6).length = 6 ∧
      ((h3 ++ ' ' :: rest).take 6).all hexChar) := by
    rintro ⟨-, hall⟩
    have hmem : ' ' ∈ (h3 ++ ' ' :: rest).take 6 := by
      rw [htake]
      exact List.mem_append_right _ (List.mem_cons_self _ _)
    have := List.all_eq_true.mp hall ' ' hmem
    exact absurd this (by decide)
  unfold hexCore
  rw [show charP '#' ('#' :: (h3 ++ ' ' :: rest)) = some (h3 ++ ' ' :: rest)
    from rfl]
  show (if ((h3 ++ ' ' :: rest).take 6).length = 6 ∧
      ((h3 ++ ' ' :: rest).take 6).all hexChar
    then some ((h3 ++ ' ' :: rest).drop 6) else none) = none
  rw [if_neg hfalse]

lemma ne_of_class (p : Char → Bool) (c d : Char) (h : p c = true)
    (hd : p d = false) : (c == d) = false := by
  by_cases hcd : c = d
  · rw [hcd] at h
    rw [h] at hd
    cases hd
  · simpa using hcd

lemma scanAll_body_win (tryM : List Char → Option (List Char × List Char))
    (startOK : Char → Bool)
    (hfail : ∀ c cs, startOK c = false → tryM (c :: cs) = none)
    (hsep : startOK ' ' = false ∧ startOK '%' = false ∧ startOK ',' = false ∧
      startOK ')' = false) :
    ∀ (toks pcts : List (List Char)), toks ≠ [] → toks.length = pcts.length →
    (∀ t ∈ toks, t ≠ [] ∧ ∀ rest, tryM (t ++ rest) = some (t, rest)) →
    (∀ p ∈ pcts, ∀ c ∈ p, startOK c = false) →
    scanAll tryM (colorStopsBody toks pcts ++ [')']) = toks := by
  intro toks
  induction toks with
  | nil => intro pcts h; exact absurd rfl h
  | cons t more ih =>
    intro pcts _ hlen hmatch hpct
    cases pcts with
    | nil => cases hlen
    | cons p ps =>
      obtain ⟨tne, tmatch⟩ := hmatch t (by simp)
      have hpcts : ∀ c ∈ p, startOK c = false := hpct p (by simp)
      cases more with
      | nil =>
        cases ps with
        | nil =>
          have hshape : colorStopsBody [t] [p] ++ [')'] =
              t ++ ((' ' :: (p ++ ['%', ')']))) := by
            simp [colorStopsBody, joinCS]
          rw [hshape, scanAll_match tryM t _ tne (tmatch _)]
          rw [show (' ' :: (p ++ ['%', ')'])) =
            (' ' :: (p ++ ['%', ')'])) ++ [] by simp]
          rw [scanAll_skip tryM startOK hfail _ [] ?_]
          · rfl
          · intro c hc
            simp only [List.mem_cons, List.mem_append] at hc
            rcases hc with rfl | hc | hc
            · exact hsep.1
            · exact hpcts c hc
            · rcases hc with rfl | rfl | hc
              · exact hsep.2.1
              · exact hsep.2.2.2
              · cases hc
        | cons q qs => cases hlen
      | cons t2 more2 =>
        cases ps with
        | nil => cases hlen
        | cons q qs =>
          have hshape : colorStopsBody (t :: t2 :: more2) (p :: q :: qs) ++ [')'] =
              t ++ ((' ' :: (p ++ ['%', ',', ' '])) ++
                (colorStopsBody (t2 :: more2) (q :: qs) ++ [')'])) := by
            simp [colorStopsBody, joinCS]
          rw [hshape, scanAll_match tryM t _ tne (tmatch _)]
          rw [scanAll_skip tryM startOK hfail _ _ ?_]
          · rw [ih (q :: qs) (by simp) (by simpa using hlen)
              (fun t' ht' => hmatch t' (by simp [ht'])) 
              (fun p' hp' => hpct p' (by simp [hp']))]
          · intro c hc
            simp only [List.mem_cons, List.mem_append] at hc
            rcases hc with rfl | hc | hc
            · exact hsep.1
            · exact hpcts c hc
            · rcases hc with rfl | rfl | rfl | hc
              · exact hsep.2.1
              · exact hsep.2.2.1
              · exact hsep.1
              · cases hc

lemma scanAll_body_skip (tryM : List Char → Option (List Char × List Char))
    (startOK : Char → Bool)
    (hfail : ∀ c cs, startOK c = false → tryM (c :: cs) = none)
    (hsep : startOK ' ' = false ∧ startOK '%' = false ∧ startOK ',' = false ∧
      startOK ')' = false) :
    ∀ (toks pcts : List (List Char)), toks.length = pcts.length →
    (∀ t ∈ toks, ∀ X, scanAll tryM (t ++ (' ' :: X)) = scanAll tryM (' ' :: X)) →
    (∀ p ∈ pcts, ∀ c ∈ p, startOK c = false) →
    scanAll tryM (colorStopsBody toks pcts ++ [')']) = [] := by
  intro toks
  induction toks with
  | nil =>
    intro pcts hlen _ _
    cases pcts with
    | nil =>
      show scanAll tryM ([] ++ [')']) = []
      rw [List.nil_append,
        scanAll_cons_none tryM ')' [] (hfail ')' [] hsep.2.2.2)]
      rfl
    | cons q qs => cases hlen
  | cons t more ih =>
    intro pcts hlen hskip hpct
    cases pcts with
    | nil => cases hlen
    | cons p ps =>
      have hpcts : ∀ c ∈ p, startOK c = false := hpct p (by simp)
      cases more with
      | nil =>
        cases ps with
        | nil =>
          have hshape : colorStopsBody [t] [p] ++ [')'] =
              t ++ (' ' :: (p ++ ['%', ')'])) := by
            simp [colorStopsBody, joinCS]
          rw [hshape, hskip t (by simp) _]
          rw [show (' ' :: (p ++ ['%', ')'])) =
            (' ' :: (p ++ ['%', ')'])) ++ [] by simp]
          rw [scanAll_skip tryM startOK hfail _ [] ?_]
          · rfl
          · intro c hc
            simp only [List.mem_cons, List.mem_append] at hc
            rcases hc with rfl | hc | hc
            · exact hsep.1
            · exact hpcts c hc
            · rcases hc with rfl | rfl | hc
              · exact hsep.2.1
              · exact hsep.2.2.2
              · cases hc
        | cons q qs => cases hlen
      | cons t2 more2 =>
        cases ps with
        | nil => cases hlen
        | cons q qs =>
          have hshape : colorStopsBody (t :: t2 :: more2) (p :: q :: qs) ++ [')'] =
              t ++ (' ' :: (p ++ ['%', ',', ' '] ++
                (colorStopsBody (t2 :: more2) (q :: qs) ++ [')']))) := by
            simp [colorStopsBody, joinCS]
          rw [hshape, hskip t (by simp) _]
          rw [show (' ' :: (p ++ ['%', ',', ' '] ++
              (colorStopsBody (t2 :: more2) (q :: qs) ++ [')']))) =
            ((' ' :: (p ++ ['%', ',', ' '])) ++
              (colorStopsBody (t2 :: more2) (q :: qs) ++ [')'])) by simp]
          rw [scanAll_skip tryM startOK hfail _ _ ?_]
          · exact ih (q :: qs) (by simpa using hlen)
              (fun t' ht' => hskip t' (by simp [ht']))
              (fun p' hp' => hpct p' (by simp [hp']))
          · intro c hc
            simp only [List.mem_cons, List.mem_append] at hc
            rcases hc with rfl | hc | hc
            · exact hsep.1
            · exact hpcts c hc
            · rcases hc with rfl | rfl | rfl | hc
              · exact hsep.2.1
              · exact hsep.2.2.1
              · exact hsep.1
              · cases hc

def hslTokChar (c : Char) : Bool :=
  c = 'h' || c = 's' || c = 'l' || c = 'a' || c = '(' || c = ')' || c = ',' ||
    c = ' ' || c = '%' || digitDotChar c

lemma all_imp (p q : Char → Bool) (l : List Char) (h : l.all p = true)
    (himp : ∀ c, p c = true → q c = true) : l.all q = true := by
  rw [List.all_eq_true] at h ⊢
  exact fun c hc => himp c (h c hc)

lemma renderHSL_all (h s l : List Char) (a : Option (List Char))
    (hh : h.all Char.isDigit) (hs : s.all Char.isDigit)
    (hl : l.all Char.isDigit) (ha : ∀ al ∈ a, al.all digitDotChar) :
    (renderHSL h s l a).all hslTokChar = true := by
  have himp : ∀ c : Char, Char.isDigit c = true → hslTokChar c = true := by
    intro c hc
    simp [hslTokChar, digitDotChar, hc]
  have himp2 : ∀ c : Char, digitDotChar c = true → hslTokChar c = true := by
    intro c hc
    simp [hslTokChar, hc]
  have e1 := all_imp _ hslTokChar h hh himp
  have e2 := all_imp _ hslTokChar s hs himp
  have e3 := all_imp _ hslTokChar l hl himp
  cases a with
  | none =>
    simp only [renderHSL, List.all_append, List.all_cons, List.all_nil,
      Bool.and_eq_true, e1, e2, e3]
    decide
  | some al =>
    have e4 := all_imp _ hslTokChar al (ha al rfl) himp2
    simp only [renderHSL, List.all_append, List.all_cons, List.all_nil,
      Bool.and_eq_true, e1, e2, e3, e4]
    decide

lemma tryRGBTok_no_r (c : Char) (cs : List Char) (h : (c == 'r') = false) :
    tryRGBTok (c :: cs) = none :=
  mkTry_none _ _ (rgbCore_no_r c cs h)

lemma tryHSLTok_no_h (c : Char) (cs : List Char) (h : (c == 'h') = false) :
    tryHSLTok (c :: cs) = none :=
  mkTry_none _ _ (hslCore_no_h c cs h)

lemma tryHex6Tok_no_hash (c : Char) (cs : List Char) (h : (c == '#') = false) :
    tryHex6Tok (c :: cs) = none :=
  mkTry_none _ _ (hexCore_no_hash 6 c cs h)

lemma tryHex3Tok_no_hash (c : Char) (cs : List Char) (h : (c == '#') = false) :
    tryHex3Tok (c :: cs) = none :=
  mkTry_none _ _ (hexCore_no_hash 3 c cs h)

lemma scanRGB_header (rest : List Char) :
    scanAll tryRGBTok (gradientHeader ++ rest) = scanAll tryRGBTok rest := by
  have e1 : gradientHeader ++ rest =
      ['l','i','n','e','a'] ++ ('r' :: '-' :: 'g' :: 'r' :: 'a' ::
        (['d','i','e','n','t','(','1','3','5','d','e','g',',',' '] ++ rest)) := by
    simp [gradientHeader]
  rw [e1]
  rw [scanAll_skip tryRGBTok (fun c => c == 'r') tryRGBTok_no_r _ _
    (by decide)]
  rw [scanAll_cons_none tryRGBTok 'r' _
    (mkTry_none _ _ (rgbCore_no_g '-' _ (by decide)))]
  rw [scanAll_cons_none tryRGBTok '-' _ (tryRGBTok_no_r '-' _ (by decide))]
  rw [scanAll_cons_none tryRGBTok 'g' _ (tryRGBTok_no_r 'g' _ (by decide))]
  rw [scanAll_cons_none tryRGBTok 'r' _
    (mkTry_none _ _ (rgbCore_no_g 'a' _ (by decide)))]
  rw [show ('a' :: (['d','i','e','n','t','(','1','3','5','d','e','g',',',' ']
      ++ rest)) =
    ['a','d','i','e','n','t','(','1','3','5','d','e','g',',',' '] ++ rest
    from rfl]
  rw [scanAll_skip tryRGBTok (fun c => c == 'r') tryRGBTok_no_r _ _
    (by decide)]

lemma scanHex_header (k : Nat) (rest : List Char) :
    scanAll (mkTry (hexCore k)) (gradientHeader ++ rest) =
      scanAll (mkTry (hexCore k)) rest := by
  refine scanAll_skip _ (fun c => c == '#')
    (fun c cs h => mkTry_none _ _ (hexCore_no_hash k c cs h)) _ _ (by decide)

lemma scanHSL_header (rest : List Char) :
    scanAll tryHSLTok (gradientHeader ++ rest) = scanAll tryHSLTok rest := by
  refine scanAll_skip _ (fun c => c == 'h') tryHSLTok_no_h _ _ (by decide)

inductive ColorFam where
  | rgbFam | hex6Fam | hex3Fam | hslFam
deriving DecidableEq, Repr

inductive GradTok where
  | rgbT (r g b : List Char) (a : Option (List Char))
  | hex6T (hx : List Char)
  | hex3T (hx : List Char)
  | hslT (h s l : List Char) (a : Option (List Char))
deriving DecidableEq, Repr

def GradTok.render : GradTok → List Char
  | .rgbT r g b a => renderRGB r g b a
  | .hex6T hx => '#' :: hx
  | .hex3T hx => '#' :: hx
  | .hslT h s l a => renderHSL h s l a

def GradTok.wf : GradTok → Prop
  | .rgbT r g b a =>
    (r ≠ [] ∧ r.all Char.isDigit = true) ∧ (g ≠ [] ∧ g.all Char.isDigit = true) ∧
    (b ≠ [] ∧ b.all Char.isDigit = true) ∧
    ∀ al ∈ a, al ≠ [] ∧ al.all digitDotChar = true
  | .hex6T hx => hx.length = 6 ∧ hx.all hexChar = true
  | .hex3T hx => hx.length = 3 ∧ hx.all hexChar = true
  | .hslT h s l a =>
    (h ≠ [] ∧ h.all Char.isDigit = true) ∧ (s ≠ [] ∧ s.all Char.isDigit = true) ∧
    (l ≠ [] ∧ l.all Char.isDigit = true) ∧
    ∀ al ∈ a, al ≠ [] ∧ al.all digitDotChar = true

def GradTok.fam : GradTok → ColorFam
  | .rgbT _ _ _ _ => .rgbFam
  | .hex6T _ => .hex6Fam
  | .hex3T _ => .hex3Fam
  | .hslT _ _ _ _ => .hslFam

lemma render_ne_nil (t : GradTok) : t.render ≠ [] := by
  cases t with
  | rgbT r g b a =>
    cases a <;> simp [GradTok.render, renderRGB]
  | hex6T hx => simp [GradTok.render]
  | hex3T hx => simp [GradTok.render]
  | hslT h s l a =>
    cases a <;> simp [GradTok.render, renderHSL]

lemma pct_no_start (d : Char) (hd : digitDotChar d = false)
    (pcts : List (List Char)) (hp : ∀ p ∈ pcts, p.all digitDotChar = true) :
    ∀ p ∈ pcts, ∀ c ∈ p, (c == d) = false := by
  intro p hpp c hc
  exact ne_of_class digitDotChar c d (List.all_eq_true.mp (hp p hpp) c hc) hd

lemma scan_win_rgb (toks : List GradTok) (pcts : List (List Char))
    (hne : toks ≠ []) (hlen : toks.length = pcts.length)
    (hwf : ∀ t ∈ toks, t.wf) (hfam : ∀ t ∈ toks, t.fam = ColorFam.rgbFam)
    (hpct : ∀ p ∈ pcts, p.all digitDotChar = true) :
    scanAll tryRGBTok (encodeGradient (toks.map GradTok.render) pcts) =
      toks.map GradTok.render := by
  unfold encodeGradient
  rw [List.append_assoc, scanRGB_header]
  refine scanAll_body_win tryRGBTok (fun c => c == 'r') tryRGBTok_no_r
    (by decide) (toks.map GradTok.render) pcts ?_ (by simp [hlen]) ?_
    (pct_no_start 'r' (by decide) pcts hpct)
  · simp [hne]
  · intro t' ht'
    obtain ⟨t, ht, rfl⟩ := List.mem_map.mp ht'
    refine ⟨render_ne_nil t, fun rest => ?_⟩
    have hT := hfam t ht
    have hW := hwf t ht
    cases t with
    | rgbT r g b a =>
      obtain ⟨hr, hg, hb, ha⟩ := hW
      exact mkTry_exact rgbCore _ rest
        (rgbCore_render r g b a rest
          ⟨hr.1, hr.2⟩ ⟨hg.1, hg.2⟩ ⟨hb.1, hb.2⟩
          (fun al hal => ⟨(ha al hal).1, (ha al hal).2⟩))
    | hex6T hx => simp [GradTok.fam] at hT
    | hex3T hx => simp [GradTok.fam] at hT
    | hslT h s l a => simp [GradTok.fam] at hT

lemma scan_win_gen (tryM : List Char → Option (List Char × List Char))
    (startOK : Char → Bool)
    (hfail : ∀ c cs, startOK c = false → tryM (c :: cs) = none)
    (hsep : startOK ' ' = false ∧ startOK '%' = false ∧ startOK ',' = false ∧
      startOK ')' = false)
    (hhdr : ∀ rest, scanAll tryM (gradientHeader ++ rest) = scanAll tryM rest)
    (toks : List GradTok) (pcts : List (List Char))
    (hne : toks ≠ []) (hlen : toks.length = pcts.length)
    (hmatch : ∀ t ∈ toks, ∀ rest,
      tryM (GradTok.render t ++ rest) = some (GradTok.render t, rest))
    (hpct : ∀ p ∈ pcts, ∀ c ∈ p, startOK c = false) :
    scanAll tryM (encodeGradient (toks.map GradTok.render) pcts) =
      toks.map GradTok.render := by
  unfold encodeGradient
  rw [List.append_assoc, hhdr]
  refine scanAll_body_win tryM startOK hfail hsep (toks.map GradTok.render)
    pcts (by simp [hne]) (by simp [hlen]) ?_ hpct
  intro t' ht'
  obtain ⟨t, ht, rfl⟩ := List.mem_map.mp ht'
  exact ⟨render_ne_nil t, hmatch t ht⟩

lemma scan_lose_gen (tryM : List Char → Option (List Char × List Char))
    (startOK : Char → Bool)
    (hfail : ∀ c cs, startOK c = false → tryM (c :: cs) = none)
    (hsep : startOK ' ' = false ∧ startOK '%' = false ∧ startOK ',' = false ∧
      startOK ')' = false)
    (hhdr : ∀ rest, scanAll tryM (gradientHeader ++ rest) = scanAll tryM rest)
    (toks : List GradTok) (pcts : List (List Char))
    (hlen : toks.length = pcts.length)
    (hskip : ∀ t ∈ toks, ∀ X,
      scanAll tryM (GradTok.render t ++ (' ' :: X)) = scanAll tryM (' ' :: X))
    (hpct : ∀ p ∈ pcts, ∀ c ∈ p, startOK c = false) :
    scanAll tryM (encodeGradient (toks.map GradTok.render) pcts) = [] := by
  unfold encodeGradient
  rw [List.append_assoc, hhdr]
  refine scanAll_body_skip tryM startOK hfail hsep (toks.map GradTok.render)
    pcts (by simp [hlen]) ?_ hpct
  intro t' ht' X
  obtain ⟨t, ht, rfl⟩ := List.mem_map.mp ht'
  exact hskip t ht X

lemma hexTok_all (hx : List Char) (hall : hx.all hexChar = true) (d : Char)
    (hd1 : (('#' : Char) == d) = false) (hd2 : hexChar d = false) :
    ∀ c ∈ ('#' :: hx), (c == d) = false := by
  intro c hc
  rcases List.mem_cons.mp hc with rfl | hc
  · exact hd1
  · exact ne_of_class hexChar c d (List.all_eq_true.mp hall c hc) hd2

lemma hslTok_all (h s l : List Char) (a : Option (List Char))
    (hh : h.all Char.isDigit = true) (hs : s.all Char.isDigit = true)
    (hl : l.all Char.isDigit = true) (ha : ∀ al ∈ a, al.all digitDotChar = true)
    (d : Char) (hd : hslTokChar d = false) :
    ∀ c ∈ renderHSL h s l a, (c == d) = false := by
  intro c hc
  exact ne_of_class hslTokChar c d
    (List.all_eq_true.mp (renderHSL_all h s l a hh hs hl ha) c hc) hd

lemma tok_skip_hex6_on_hex3 (h3 : List Char) (hlen : h3.length = 3)
    (hall : h3.all hexChar = true) (X : List Char) :
    scanAll tryHex6Tok (('#' :: h3) ++ (' ' :: X)) =
      scanAll tryHex6Tok (' ' :: X) := by
  rw [List.cons_append]
  rw [scanAll_cons_none tryHex6Tok '#' _
    (mkTry_none _ _ (hex6_fail_on_hex3 h3 X hlen))]
  refine scanAll_skip tryHex6Tok (fun c => c == '#') tryHex6Tok_no_hash h3
    (' ' :: X) ?_
  intro c hc
  exact ne_of_class hexChar c '#' (List.all_eq_true.mp hall c hc) (by decide)

lemma extractGradientColors_roundtrip (f : ColorFam) (toks : List GradTok)
    (pcts : List (List Char)) (hne : toks ≠ [])
    (hwf : ∀ t ∈ toks, t.wf) (hfam : ∀ t ∈ toks, t.fam = f)
    (hplen : toks.length = pcts.length)
    (hpct : ∀ p ∈ pcts, p.all digitDotChar = true) :
    extractGradientColors (encodeGradient (toks.map GradTok.render) pcts) =
      toks.map GradTok.render := by
  obtain ⟨t0, ts0, rfl⟩ : ∃ t0 ts0, toks = t0 :: ts0 := by
    cases toks with
    | nil => exact absurd rfl hne
    | cons a b => exact ⟨a, b, rfl⟩
  cases f with
  | rgbFam =>
    have h1 := scan_win_rgb (t0 :: ts0) pcts hne hplen hwf hfam hpct
    unfold extractGradientColors
    rw [h1]
    rfl
  | hex6Fam =>
    have hskipR : ∀ t ∈ (t0 :: ts0), ∀ X,
        scanAll tryRGBTok (GradTok.render t ++ (' ' :: X)) =
          scanAll tryRGBTok (' ' :: X) := by
      intro t ht X
      have hT := hfam t ht
      have hW := hwf t ht
      cases t with
      | rgbT r g b a => simp [GradTok.fam] at hT
      | hex3T hx => simp [GradTok.fam] at hT
      | hslT h s l a => simp [GradTok.fam] at hT
      | hex6T hx =>
        exact scanAll_skip tryRGBTok (fun c => c == 'r') tryRGBTok_no_r
          ('#' :: hx) (' ' :: X) (hexTok_all hx hW.2 'r' (by decide) (by decide))
    have h0 := scan_lose_gen tryRGBTok (fun c => c == 'r') tryRGBTok_no_r
      (by decide) scanRGB_header (t0 :: ts0) pcts hplen hskipR
      (pct_no_start 'r' (by decide) pcts hpct)
    have h1 : scanAll tryHex6Tok
        (encodeGradient ((t0 :: ts0).map GradTok.render) pcts) =
        (t0 :: ts0).map GradTok.render := by
      refine scan_win_gen tryHex6Tok (fun c => c == '#') tryHex6Tok_no_hash
        (by decide) (scanHex_header 6) (t0 :: ts0) pcts hne hplen ?_
        (pct_no_start '#' (by decide) pcts hpct)
      intro t ht rest
      have hT := hfam t ht
      have hW := hwf t ht
      cases t with
      | rgbT r g b a => simp [GradTok.fam] at hT
      | hex3T hx => simp [GradTok.fam] at hT
      | hslT h s l a => simp [GradTok.fam] at hT
      | hex6T hx =>
        exact mkTry_exact (hexCore 6) _ rest (hexCore_render 6 hx rest hW.1 hW.2)
    unfold extractGradientColors
    rw [h0, h1]
    rfl
  | hex3Fam =>
    have hskipR : ∀ t ∈ (t0 :: ts0), ∀ X,
        scanAll tryRGBTok (GradTok.render t ++ (' ' :: X)) =
          scanAll tryRGBTok (' ' :: X) := by
      intro t ht X
      have hT := hfam t ht
      have hW := hwf t ht
      cases t with
      | rgbT r g b a => simp [GradTok.fam] at hT
      | hex6T hx => simp [GradTok.fam] at hT
      | hslT h s l a => simp [GradTok.fam] at hT
      | hex3T hx =>
        exact scanAll_skip tryRGBTok (fun c => c == 'r') tryRGBTok_no_r
          ('#' :: hx) (' ' :: X) (hexTok_all hx hW.2 'r' (by decide) (by decide))
    have h0 := scan_lose_gen tryRGBTok (fun c => c == 'r') tryRGBTok_no_r
      (by decide) scanRGB_header (t0 :: ts0) pcts hplen hskipR
      (pct_no_start 'r' (by decide) pcts hpct)
    have h6 : scanAll tryHex6Tok
        (encodeGradient ((t0 :: ts0).map GradTok.render) pcts) = [] := by
      refine scan_lose_gen tryHex6Tok (fun c => c == '#') tryHex6Tok_no_hash
        (by decide) (scanHex_header 6) (t0 :: ts0) pcts hplen ?_
        (pct_no_start '#' (by decide) pcts hpct)
      intro t ht X
      have hT := hfam t ht
      have hW := hwf t ht
      cases t with
      | rgbT r g b a => simp [GradTok.fam] at hT
      | hex6T hx => simp [GradTok.fam] at hT
      | hslT h s l a => simp [GradTok.fam] at hT
      | hex3T hx => exact tok_skip_hex6_on_hex3 hx hW.1 hW.2 X
    have h1 : scanAll tryHex3Tok
        (encodeGradient ((t0 :: ts0).map GradTok.render) pcts) =
        (t0 :: ts0).map GradTok.render := by
      refine scan_win_gen tryHex3Tok (fun c => c == '#') tryHex3Tok_no_hash
        (by decide) (scanHex_header 3) (t0 :: ts0) pcts hne hplen ?_
        (pct_no_start '#' (by decide) pcts hpct)
      intro t ht rest
      have hT := hfam t ht
      have hW := hwf t ht
      cases t with
      | rgbT r g b a => simp [GradTok.fam] at hT
      | hex6T hx => simp [GradTok.fam] at hT
      | hslT h s l a => simp [GradTok.fam] at hT
      | hex3T hx =>
        exact mkTry_exact (hexCore 3) _ rest (hexCore_render 3 hx rest hW.1 hW.2)
    unfold extractGradientColors
    rw [h0, h6, h1]
    rfl
  | hslFam =>
    have hskipR : ∀ t ∈ (t0 :: ts0), ∀ X,
        scanAll tryRGBTok (GradTok.render t ++ (' ' :: X)) =
          scanAll tryRGBTok (' ' :: X) := by
      intro t ht X
      have hT := hfam t ht
      have hW := hwf t ht
      cases t with
      | rgbT r g b a => simp [GradTok.fam] at hT
      | hex6T hx => simp [GradTok.fam] at hT
      | hex3T hx => simp [GradTok.fam] at hT
      | hslT h s l a =>
        exact scanAll_skip tryRGBTok (fun c => c == 'r') tryRGBTok_no_r
          (renderHSL h s l a) (' ' :: X)
          (hslTok_all h s l a hW.1.2 hW.2.1.2 hW.2.2.1.2
            (fun al hal => (hW.2.2.2 al hal).2) 'r' (by decide))
    have hskipHex : ∀ k, ∀ t ∈ (t0 :: ts0), ∀ X,
        scanAll (mkTry (hexCore k)) (GradTok.render t ++ (' ' :: X)) =
          scanAll (mkTry (hexCore k)) (' ' :: X) := by
      intro k t ht X
      have hT := hfam t ht
      have hW := hwf t ht
      cases t with
      | rgbT r g b a => simp [GradTok.fam] at hT
      | hex6T hx => simp [GradTok.fam] at hT
      | hex3T hx => simp [GradTok.fam] at hT
      | hslT h s l a =>
        refine scanAll_skip (mkTry (hexCore k)) (fun c => c == '#')
          (fun c cs hc => mkTry_none _ _ (hexCore_no_hash k c cs hc))
          (renderHSL h s l a) (' ' :: X)
          (hslTok_all h s l a hW.1.2 hW.2.1.2 hW.2.2.1.2
            (fun al hal => (hW.2.2.2 al hal).2) '#' (by decide))
    have h0 := scan_lose_gen tryRGBTok (fun c => c == 'r') tryRGBTok_no_r
      (by decide) scanRGB_header (t0 :: ts0) pcts hplen hskipR
      (pct_no_start 'r' (by decide) pcts hpct)
    have h6 := scan_lose_gen tryHex6Tok (fun c => c == '#') tryHex6Tok_no_hash
      (by decide) (scanHex_header 6) (t0 :: ts0) pcts hplen (hskipHex 6)
      (pct_no_start '#' (by decide) pcts hpct)
    have h3 := scan_lose_gen tryHex3Tok (fun c => c == '#') tryHex3Tok_no_hash
      (by decide) (scanHex_header 3) (t0 :: ts0) pcts hplen (hskipHex 3)
      (pct_no_start '#' (by decide) pcts hpct)
    have h1 : scanAll tryHSLTok
        (encodeGradient ((t0 :: ts0).map GradTok.render) pcts) =
        (t0 :: ts0).map GradTok.render := by
      refine scan_win_gen tryHSLTok (fun c => c == 'h') tryHSLTok_no_h
        (by decide) scanHSL_header (t0 :: ts0) pcts hne hplen ?_
        (pct_no_start 'h' (by decide) pcts hpct)
      intro t ht rest
      have hT := hfam t ht
      have hW := hwf t ht
      cases t with
      | rgbT r g b a => simp [GradTok.fam] at hT
      | hex6T hx => simp [GradTok.fam] at hT
      | hex3T hx => simp [GradTok.fam] at hT
      | hslT h s l a =>
        exact mkTry_exact hslCore _ rest
          (hslCore_render h s l a rest ⟨hW.1.1, hW.1.2⟩ ⟨hW.2.1.1, hW.2.1.2⟩
            ⟨hW.2.2.1.1, hW.2.2.1.2⟩
            (fun al hal => (hW.2.2.2 al hal)))
    unfold extractGradientColors
    rw [h0, h6, h3, h1]

/-- C3 counterexample: two tokens of the hex family, one 6-digit and one
3-digit. The decoder's 6-digit pattern finds a match, so the 3-digit pattern
is never consulted ("first pattern family that yields any matches"), and
decode(encode) drops the 3-digit color: the round-trip fails within the hex
family as soon as 3- and 6-digit forms are mixed. -/
theorem gradient_roundtrip_counterexample :
    extractGradientColors (encodeGradient
      [['#','a','a','b','b','c','c'], ['#','a','b','c']]
      [['0'], ['1','0','0']]) = [['#','a','a','b','b','c','c']] ∧
    ([['#','a','a','b','b','c','c']] : List (List Char)) ≠
      [['#','a','a','b','b','c','c'], ['#','a','b','c']] := by
  exact ⟨by decide, by decide⟩

/-- C3 amended: for every list of 1 to 5 color tokens drawn from a single
pattern family of the decoder — rgb/rgba tuples, 6-digit hex, 3-digit hex, or
hsl/hsla tuples (hex counts as two separate families: mixing 3- and 6-digit
hex breaks the round-trip, see the counterexample) — extracting the colors
back out of the encoded gradient string yields a list equal to the input in
both order and length, whatever digit text the percentage stops carry. -/
theorem gradient_roundtrip (f : ColorFam) (toks : List GradTok)
    (pcts : List (List Char)) (hne : toks ≠ []) (_hle5 : toks.length ≤ 5)
    (hwf : ∀ t ∈ toks, t.wf) (hfam : ∀ t ∈ toks, t.fam = f)
    (hplen : toks.length = pcts.length)
    (hpct : ∀ p ∈ pcts, p.all digitDotChar = true) :
    extractGradientColors (encodeGradient (toks.map GradTok.render) pcts) =
      toks.map GradTok.render :=
  extractGradientColors_roundtrip f toks pcts hne hwf hfam hplen hpct

/-- Witness for `gradient_roundtrip`: the spec's scenario-B colors
`rgb(102,126,234)` and `rgb(118,75,162)` at stops 0% and 100%. -/
theorem gradient_roundtrip_witness :
    extractGradientColors (encodeGradient
      ([GradTok.rgbT ['1','0','2'] ['1','2','6'] ['2','3','4'] none,
        GradTok.rgbT ['1','1','8'] ['7','5'] ['1','6','2'] none].map
          GradTok.render)
      [['0'], ['1','0','0']]) =
      [GradTok.rgbT ['1','0','2'] ['1','2','6'] ['2','3','4'] none,
        GradTok.rgbT ['1','1','8'] ['7','5'] ['1','6','2'] none].map
          GradTok.render :=
  gradient_roundtrip ColorFam.rgbFam
    [GradTok.rgbT ['1','0','2'] ['1','2','6'] ['2','3','4'] none,
      GradTok.rgbT ['1','1','8'] ['7','5'] ['1','6','2'] none]
    [['0'], ['1','0','0']] (by decide) (by decide)
    (by
      intro t ht
      rcases List.mem_cons.mp ht with rfl | ht
      · exact ⟨⟨by decide, by decide⟩, ⟨by decide, by decide⟩,
          ⟨by decide, by decide⟩, by intro al hal; simp at hal⟩
      · rcases List.mem_cons.mp ht with rfl | ht
        · exact ⟨⟨by decide, by decide⟩, ⟨by decide, by decide⟩,
            ⟨by decide, by decide⟩, by intro al hal; simp at hal⟩
        · cases ht)
    (by decide) (by decide)
    (by
      intro p hp
      rcases List.mem_cons.mp hp with rfl | hp
      · decide
      · rcases List.mem_cons.mp hp with rfl | hp
        · decide
        · cases hp)

/-- The stop percentage
`colors.length > 1 ? (index / (colors.length - 1)) * 100 : 0`
(App.tsx line 1082), as an exact rational. -/
def stopPctQ (n i : Nat) : ℚ :=
  if 1 < n then ((i : ℚ) / ((n : ℚ) - 1)) * 100 else 0

/-- What the gradient branch of `handlePropertyChange` does (App.tsx lines
1081-1105): the re-encoded gradient string, the style properties written to
the node with important priority (in source order), the stored
`--original-background` custom property, and the `addStyleEdit` calls made. -/
structure GradientEditResult where
  newGradient : List Char
  applied : List (String × List Char)
  originalBackgroundVar : List Char
  recorded : List (String × String × List Char)

/-- The gradient branch itself: re-encode the colors at evenly spaced stops
(percentage text produced by the number-to-string conversion `render`), apply
the gradient plus the clip-to-text and transparent-fill companions to the
node, remember the original background, and record exactly one edit — on
`background`, with the encoded string as value. The record call is guarded by
`if (addStyleEdit && selector)`: an empty selector records nothing (the wired
selector generator never returns one). -/
def handleGradientColorChange (render : ℚ → List Char) (selector : String)
    (colors : List (List Char)) : GradientEditResult :=
  let pcts := (List.range colors.length).map
    (fun i => render (stopPctQ colors.length i))
  let newGradient := encodeGradient colors pcts
  { newGradient := newGradient
    applied := [("background", newGradient),
      ("background-clip", "text".data),
      ("-webkit-background-clip", "text".data),
      ("-webkit-text-fill-color", "transparent".data),
      ("color", "transparent".data)]
    originalBackgroundVar := newGradient
    recorded := if selector = "" then []
      else [(selector, "background", newGradient)] }

lemma stopPctQ_zero (n : Nat) : stopPctQ n 0 = 0 := by
  unfold stopPctQ
  split <;> simp

lemma stopPctQ_last (n : Nat) (h : 1 < n) : stopPctQ n (n - 1) = 100 := by
  unfold stopPctQ
  rw [if_pos h]
  have hne : ((n : ℚ) - 1) ≠ 0 := by
    have : (2 : ℚ) ≤ (n : ℚ) := by exact_mod_cast h
    intro hc
    nlinarith
  have hcast : ((n - 1 : Nat) : ℚ) = (n : ℚ) - 1 := by
    have : 1 ≤ n := le_of_lt h
    push_cast [this]
    ring
  rw [hcast, div_self hne]
  norm_num

lemma stopPctQ_spacing (n i : Nat) (h : 1 < n) :
    stopPctQ n (i + 1) - stopPctQ n i = 100 / ((n : ℚ) - 1) := by
  unfold stopPctQ
  rw [if_pos h, if_pos h]
  have hne : ((n : ℚ) - 1) ≠ 0 := by
    have : (2 : ℚ) ≤ (n : ℚ) := by exact_mod_cast h
    intro hc
    nlinarith
  push_cast
  field_simp
  ring

lemma stopPctQ_single (i : Nat) : stopPctQ 1 i = 0 := by
  unfold stopPctQ
  norm_num

/-- C4: editing a gradient color field re-encodes the descriptor through
`encodeGradient` — the string is `linear-gradient(135deg, …)` with color `i`
at stop `(i/(n-1))*100` percent (stops start at 0, end at 100, are evenly
spaced by `100/(n-1)`, and a single color degenerates to 0) — exactly one
StyleEdit is recorded, on the `background` property, with that string as its
value, and the clip-to-text and transparent-text-fill companion properties
are applied to the node as part of the same logical edit. -/
theorem gradient_edit_single_record (render : ℚ → List Char)
    (selector : String) (colors : List (List Char)) (_hne : colors ≠ [])
    (hsel : selector ≠ "") :
    (handleGradientColorChange render selector colors).newGradient =
      encodeGradient colors ((List.range colors.length).map
        (fun i => render (stopPctQ colors.length i))) ∧
    gradientHeader = "linear-gradient(135deg, ".data ∧
    (handleGradientColorChange render selector colors).recorded =
      [(selector, "background",
        (handleGradientColorChange render selector colors).newGradient)] ∧
    ("background-clip", "text".data) ∈
      (handleGradientColorChange render selector colors).applied ∧
    ("-webkit-background-clip", "text".data) ∈
      (handleGradientColorChange render selector colors).applied ∧
    ("-webkit-text-fill-color", "transparent".data) ∈
      (handleGradientColorChange render selector colors).applied ∧
    ("color", "transparent".data) ∈
      (handleGradientColorChange render selector colors).applied ∧
    stopPctQ colors.length 0 = 0 ∧
    (1 < colors.length →
      stopPctQ colors.length (colors.length - 1) = 100 ∧
      ∀ i, stopPctQ colors.length (i + 1) - stopPctQ colors.length i =
        100 / ((colors.length : ℚ) - 1)) ∧
    (colors.length = 1 → ∀ i, stopPctQ colors.length i = 0) := by
  refine ⟨rfl, by decide, ?_, ?_, ?_, ?_, ?_, stopPctQ_zero _,
    fun h => ⟨stopPctQ_last _ h, fun i => stopPctQ_spacing _ i h⟩,
    fun h => by rw [h]; exact stopPctQ_single⟩ <;>
  · simp [handleGradientColorChange, hsel]

/-- Witness for `gradient_edit_single_record` at one concrete color. -/
theorem gradient_edit_single_record_witness :
    (handleGradientColorChange (fun _ => ['0']) ".hero"
      [['r','e','d']]).recorded =
      [(".hero", "background",
        (handleGradientColorChange (fun _ => ['0']) ".hero"
          [['r','e','d']]).newGradient)] :=
  (gradient_edit_single_record (fun _ => ['0']) ".hero" [['r','e','d']]
    (by decide) (by decide)).2.2.1
